import Mathlib

/-!
Verification of the Wikipedia infobox extraction core of the jobwiz
repository (scripts/trivia/trivia/wikipedia.py), shallowly embedded over
`List Char`.  Each Python regular expression is modelled by a hand-written
scanner with the same leftmost-match, greedy/lazy semantics on the inputs
in question.  Literal brace characters in string literals are written with
the escapes \x7b and \x7d.
-/

namespace JobWiz

/-- Whitespace characters recognised by Python `str.strip`, `str.split()`
and the regex class backslash-s (ASCII range). -/
def isPySpace (c : Char) : Bool :=
  c = ' ' || c = '\t' || c = '\n' || c = '\r' || c = '\x0b' || c = '\x0c'

/-- Word characters of the regex class backslash-w (ASCII range). -/
def isWordChar (c : Char) : Bool :=
  c.isAlphanum || c = '_'

/-- Python `str.strip()` on a character list. -/
def pyStripList (cs : List Char) : List Char :=
  ((cs.dropWhile isPySpace).reverse.dropWhile isPySpace).reverse

/-- Python `str.strip()`. -/
def pyStrip (s : String) : String := ⟨pyStripList s.data⟩

/-- Python `str.lower()` (ASCII scope). -/
def pyLower (s : String) : String := ⟨s.data.map Char.toLower⟩

/-- Python `str.replace(" ", "_")`. -/
def spacesToUnderscores (s : String) : String :=
  ⟨s.data.map (fun c => if c = ' ' then '_' else c)⟩

/-- Python `str.split(sep)` for a one-character separator: splits at every
occurrence, keeping empty pieces. -/
def splitChar (sep : Char) : List Char → List (List Char)
  | [] => [[]]
  | c :: cs =>
    match splitChar sep cs with
    | [] => [[]]
    | h :: t => if c = sep then [] :: h :: t else (c :: h) :: t

/-- Split at every character satisfying `p`, keeping empty pieces
(used to model Python `str.split()` and `re.split` on a character class). -/
def splitPred (p : Char → Bool) : List Char → List (List Char)
  | [] => [[]]
  | c :: cs =>
    match splitPred p cs with
    | [] => [[]]
    | h :: t => if p c then [] :: h :: t else (c :: h) :: t

/-- Python `str.split()`: split on whitespace runs, dropping empty pieces. -/
def pySplitWs (cs : List Char) : List (List Char) :=
  (splitPred isPySpace cs).filter (fun w => !w.isEmpty)

/-- Python `" ".join(words)` on character lists. -/
def joinWithSpace : List (List Char) → List Char
  | [] => []
  | [w] => w
  | w :: ws => w ++ ' ' :: joinWithSpace ws

/-- Match a literal pattern case-insensitively at the head of the input,
returning the rest of the input on success. -/
def matchCaseless : List Char → List Char → Option (List Char)
  | [], cs => some cs
  | _ :: _, [] => none
  | p :: ps, c :: cs => if c.toLower = p.toLower then matchCaseless ps cs else none

/-- Greedily take at most `n` leading decimal digits, modelling the regex
piece backslash-d-braces-1-2 (for n = 2) and returning (digits, rest). -/
def takeDigitsUpTo : Nat → List Char → List Char × List Char
  | 0, cs => ([], cs)
  | _ + 1, [] => ([], [])
  | n + 1, c :: cs =>
    if c.isDigit then
      match takeDigitsUpTo n cs with
      | (ds, rest) => (c :: ds, rest)
    else ([], c :: cs)

/-- Python `str.zfill(2)`: left-pad with zeros to width 2. -/
def zfill2 (s : List Char) : List Char :=
  if 2 ≤ s.length then s else List.replicate (2 - s.length) '0' ++ s

/-! ## The start-date template regex of `_extract_from_templates`

Models the search for the pattern
  backslash-brace-brace `Start date` [^|]* pipe (d4) pipe? (d1-2)? pipe? (d1-2)?
with the IGNORECASE flag.  The literal braces are matched first (they are
case-invariant), then the letters case-insensitively.  `[^|]*` is greedy
but cannot cross a pipe, so it deterministically stops at the first pipe.
-/

/-- The greedy optional pipe of the pattern (the `pipe?` pieces): consume
a leading pipe when present. -/
def dropPipe : List Char → List Char
  | '|' :: t => t
  | l => l

/-- Try to match the start-date template at the head of the input,
returning the (year, month, day) capture groups; month and day are `[]`
when their optional groups did not participate.  After the caseless
literal and the greedy `[^|]*`, a pipe and four digits give the year,
then an optional pipe and up to two digits give the month, then again for
the day. -/
def tryStartDate : List Char → Option (List Char × List Char × List Char)
  | '\x7b' :: '\x7b' :: r1 =>
    match matchCaseless "start date".data r1 with
    | none => none
    | some r2 =>
      match r2.dropWhile (fun c => c != '|') with
      | '|' :: c1 :: c2 :: c3 :: c4 :: r4 =>
        if c1.isDigit && c2.isDigit && c3.isDigit && c4.isDigit then
          match takeDigitsUpTo 2 (dropPipe r4) with
          | (m, r6) =>
            match takeDigitsUpTo 2 (dropPipe r6) with
            | (d, _) => some ([c1, c2, c3, c4], m, d)
        else none
      | _ => none
  | _ => none

/-- Leftmost search for the start-date template (Python `re.search`). -/
def searchStartDate : List Char → Option (List Char × List Char × List Char)
  | [] => none
  | c :: cs =>
    match tryStartDate (c :: cs) with
    | some g => some g
    | none => searchStartDate cs

/-- Format the captured date groups the way `_extract_from_templates` does:
`YYYY-MM-DD`, `YYYY-MM` or `YYYY` with `zfill(2)` padding. -/
def formatStartDate (y m d : List Char) : List Char :=
  if m ≠ [] ∧ d ≠ [] then y ++ '-' :: (zfill2 m ++ '-' :: zfill2 d)
  else if m ≠ [] then y ++ '-' :: zfill2 m
  else y

/-- Core of `_extract_from_templates` on a character list.  When a
start-date template is found the WHOLE value is replaced by the formatted
date (the function returns early); otherwise the value is returned
unchanged (the `Ubl` branch of the source also returns the value
unchanged, so it needs no separate case). -/
def extract_from_templatesL (cs : List Char) : List Char :=
  match searchStartDate cs with
  | some (y, m, d) => formatStartDate y m d
  | none => cs

/-- `_extract_from_templates` of wikipedia.py. -/
def extract_from_templates (value : String) : String :=
  ⟨extract_from_templatesL value.data⟩

/-! ## The generic cleaning regexes of `_clean_wiki_value`

Each `re.sub` pass is a left-to-right scan that either replaces a match
and resumes after it, or copies one character and moves on.  Every scanner
takes a fuel argument (one unit per scan step, so the input length is
always enough fuel); at fuel zero the rest of the input is copied
unchanged. -/

/-- Try the wiki-link regex at the head of the input:
two open brackets, optional group `[^]|]* pipe`, group2 `[^]]*`,
two close brackets; returns (group2, rest). -/
def tryLink : List Char → Option (List Char × List Char)
  | '[' :: '[' :: r1 =>
    let a := r1.takeWhile (fun c => c != ']' && c != '|')
    let r3 := match r1.drop a.length with
      | '|' :: t => t
      | _ => r1
    let g2 := r3.takeWhile (fun c => c != ']')
    match r3.drop g2.length with
    | ']' :: ']' :: rest => some (g2, rest)
    | _ => none
  | _ => none

/-- The substitution `re.sub(link-pattern, group2, value)`. -/
def subLinks : Nat → List Char → List Char
  | 0, cs => cs
  | _ + 1, [] => []
  | fuel + 1, c :: cs =>
    match tryLink (c :: cs) with
    | some (g2, rest) => g2 ++ subLinks fuel rest
    | none => c :: subLinks fuel cs

/-- Match a literal pattern case-sensitively at the head of the input
(the reference and HTML patterns of the source carry no IGNORECASE
flag). -/
def matchLit : List Char → List Char → Option (List Char)
  | [], cs => some cs
  | _ :: _, [] => none
  | p :: ps, c :: cs => if c = p then matchLit ps cs else none

/-- Find the first occurrence of the literal `</ref>` and return the rest
of the input after it (the lazy `.*?` of the paired-reference regex
`<ref[^>]*>.*?</ref>`, DOTALL, case-sensitive). -/
def findCloseRef : List Char → Option (List Char)
  | [] => none
  | c :: cs =>
    match matchLit "</ref>".data (c :: cs) with
    | some rest => some rest
    | none => findCloseRef cs

/-- Paired-reference match attempt; returns the rest after `</ref>`. -/
def tryRefPair : List Char → Option (List Char)
  | '<' :: r0 =>
    match matchLit "ref".data r0 with
    | none => none
    | some r1 =>
      match r1.drop (r1.takeWhile (fun c => c != '>')).length with
      | '>' :: r2 => findCloseRef r2
      | _ => none
  | _ => none

/-- The substitution removing paired references. -/
def subRefPair : Nat → List Char → List Char
  | 0, cs => cs
  | _ + 1, [] => []
  | fuel + 1, c :: cs =>
    match tryRefPair (c :: cs) with
    | some rest => subRefPair fuel rest
    | none => c :: subRefPair fuel cs

/-- Try the self-closed reference regex `<ref[^/]*/>` at the head. -/
def tryRefSelf : List Char → Option (List Char)
  | '<' :: r0 =>
    match matchLit "ref".data r0 with
    | none => none
    | some r1 =>
      match r1.drop (r1.takeWhile (fun c => c != '/')).length with
      | '/' :: '>' :: rest => some rest
      | _ => none
  | _ => none

/-- The substitution removing self-closed references. -/
def subRefSelf : Nat → List Char → List Char
  | 0, cs => cs
  | _ + 1, [] => []
  | fuel + 1, c :: cs =>
    match tryRefSelf (c :: cs) with
    | some rest => subRefSelf fuel rest
    | none => c :: subRefSelf fuel cs

/-- Try the template regex (brace brace, `[^}]*`, brace brace) at the head. -/
def tryTemplate : List Char → Option (List Char)
  | '\x7b' :: '\x7b' :: r1 =>
    let a := r1.takeWhile (fun c => c != '\x7d')
    match r1.drop a.length with
    | '\x7d' :: '\x7d' :: rest => some rest
    | _ => none
  | _ => none

/-- The substitution removing flat templates. -/
def subTemplates : Nat → List Char → List Char
  | 0, cs => cs
  | _ + 1, [] => []
  | fuel + 1, c :: cs =>
    match tryTemplate (c :: cs) with
    | some rest => subTemplates fuel rest
    | none => c :: subTemplates fuel cs

/-- Try the HTML-tag regex `<[^>]+>` (at least one inner character). -/
def tryHtml : List Char → Option (List Char)
  | '<' :: r1 =>
    let a := r1.takeWhile (fun c => c != '>')
    if a.isEmpty then none
    else
      match r1.drop a.length with
      | '>' :: rest => some rest
      | _ => none
  | _ => none

/-- The substitution removing HTML tags. -/
def subHtml : Nat → List Char → List Char
  | 0, cs => cs
  | _ + 1, [] => []
  | fuel + 1, c :: cs =>
    match tryHtml (c :: cs) with
    | some rest => subHtml fuel rest
    | none => c :: subHtml fuel cs

/-- Run one substitution scanner over a value, giving it the value's
length as fuel (each scan step consumes at least one character, so the
length is always enough fuel for a full pass). -/
def runSub (step : Nat → List Char → List Char) (cs : List Char) : List Char :=
  step cs.length cs

/-- `_clean_wiki_value` of wikipedia.py: the four regex substitutions in
source order (links, paired references, self-closed references, templates,
HTML tags), then `" ".join(value.split())` and a final `strip()`. -/
def clean_wiki_value (value : String) : String :=
  ⟨pyStripList (joinWithSpace (pySplitWs
    (runSub subHtml (runSub subTemplates (runSub subRefSelf
      (runSub subRefPair (runSub subLinks value.data)))))))⟩

/-- The two value passes applied by `_process_infobox_field` (lines
215-216 of the source): template extraction, then generic cleaning.  This
is the `normalizeValue` of the specification. -/
def normalizeValue (rawValue : String) : String :=
  clean_wiki_value (extract_from_templates rawValue)

/-- `_split_list` of wikipedia.py: `re.split` on comma, newline, bullet or
asterisk, then strip each piece and drop empty pieces. -/
def split_list (value : String) : List String :=
  (((splitPred (fun c => c = ',' || c = '\n' || c = '•' || c = '*') value.data).map
      pyStripList).filter (fun w => !w.isEmpty)).map (fun w => ⟨w⟩)

/-! ## The CEO extraction regexes of `_extract_ceo`

Four strategies tried in order against the raw field value, first match
winning; each regex carries the IGNORECASE flag. -/

/-- Strategy 1 at a fixed position: wiki-link form
two open brackets, group1 `[^]|]+`, optional `pipe [^]]+`, two close
brackets, whitespace, optional parenthesis, optional open brackets,
optional literal `Chief executive officer` with pipe, then `CEO`. -/
def tryCeo1 : List Char → Option (List Char)
  | '[' :: '[' :: r1 =>
    let g1 := r1.takeWhile (fun c => c != ']' && c != '|')
    if g1.isEmpty then none
    else
      let r2 := r1.drop g1.length
      let r3 := match r2 with
        | '|' :: t =>
          let u := t.takeWhile (fun c => c != ']')
          if u.isEmpty then r2 else t.drop u.length
        | _ => r2
      match r3 with
      | ']' :: ']' :: r4 =>
        let r5 := r4.dropWhile isPySpace
        let r6 := match r5 with
          | '(' :: t => t
          | _ => r5
        let r7 := match r6 with
          | '[' :: '[' :: t => t
          | _ => r6
        let r8 := match matchCaseless "chief executive officer|".data r7 with
          | some t => t
          | none => r7
        match matchCaseless "ceo".data r8 with
        | some _ => some g1
        | none => none
      | _ => none
  | _ => none

/-- Leftmost search for strategy 1. -/
def searchCeo1 : List Char → Option (List Char)
  | [] => none
  | c :: cs =>
    match tryCeo1 (c :: cs) with
    | some g => some g
    | none => searchCeo1 cs

/-- Characters allowed inside group1 of strategies 2 and 3:
the class `[^,\n[]`. -/
def ceoNameChar (c : Char) : Bool :=
  c != ',' && c != '\n' && c != '['

/-- Strategy 2, greedy group1 backtracking: try the group length `k`
(descending from the maximal run) until whitespace followed by the literal
`(CEO)` matches after it. -/
def ceo2Try (cs : List Char) : Nat → Option (List Char)
  | 0 => none
  | k + 1 =>
    match matchCaseless "(ceo)".data ((cs.drop (k + 1)).dropWhile isPySpace) with
    | some _ => some (cs.take (k + 1))
    | none => ceo2Try cs k

/-- Strategy 2 at a fixed position: `([^,\n[]+) \s* (CEO)` with the group
greedy, hence the longest viable `k` wins. -/
def ceo2At (cs : List Char) : Option (List Char) :=
  ceo2Try cs (cs.takeWhile ceoNameChar).length

/-- Leftmost search for strategy 2. -/
def searchCeo2 : List Char → Option (List Char)
  | [] => none
  | c :: cs =>
    match ceo2At (c :: cs) with
    | some g => some g
    | none => searchCeo2 cs

/-- Strategy 3, lazy group1: try lengths `k` ascending; after the group
comes `\s+` (at least one whitespace), the caseless literal `CEO`, then a
whitespace, a comma or the end of input. -/
def ceo3Try (cs : List Char) : Nat → Nat → Option (List Char)
  | _, 0 => none
  | k, tries + 1 =>
    let rest := cs.drop k
    let ws := rest.takeWhile isPySpace
    let good :=
      if ws.isEmpty then false
      else
        match matchCaseless "ceo".data (rest.drop ws.length) with
        | some [] => true
        | some (c :: _) => isPySpace c || c = ','
        | none => false
    if good then some (cs.take k) else ceo3Try cs (k + 1) tries

/-- Strategy 3 at a fixed position (group length ranges over the maximal
`[^,\n[]` run starting here). -/
def ceo3At (cs : List Char) : Option (List Char) :=
  let m := (cs.takeWhile ceoNameChar).length
  if m = 0 then none else ceo3Try cs 1 m

/-- Leftmost search for strategy 3. -/
def searchCeo3 : List Char → Option (List Char)
  | [] => none
  | c :: cs =>
    match ceo3At (c :: cs) with
    | some g => some g
    | none => searchCeo3 cs

/-- `_extract_ceo` of wikipedia.py.  The fallback (strategy 4) cleans wiki
links from the whole value and takes the text before the first comma; it
can return the empty string, which the caller treats as no CEO. -/
def extract_ceo (value : String) : Option String :=
  match searchCeo1 value.data with
  | some g => some (pyStrip ⟨g⟩)
  | none =>
    match searchCeo2 value.data with
    | some g => some (pyStrip ⟨g⟩)
    | none =>
      match searchCeo3 value.data with
      | some g => some (pyStrip ⟨g⟩)
      | none =>
        if value.data.isEmpty then none
        else
          some (pyStrip
            ⟨(runSub subLinks value.data).takeWhile (fun c => c != ',')⟩)

/-! ## The CompanyFacts record and the fact mapper -/

/-- The `CompanyFacts` dataclass of wikipedia.py (the infobox-relevant
fields; `raw_infobox` is an insertion-ordered association list, matching
the Python dict). -/
structure CompanyFacts where
  company_name : String
  wikipedia_url : Option String := none
  founding_date : Option String := none
  founders : List String := []
  headquarters : Option String := none
  industry : Option String := none
  products : List String := []
  employees : Option String := none
  ceo : Option String := none
  revenue : Option String := none
  summary : Option String := none
  raw_infobox : List (String × String) := []
  deriving DecidableEq, Repr

/-- A fresh record as built at the start of `_get_page_facts`. -/
def CompanyFacts.init (name : String) : CompanyFacts :=
  { company_name := name }

/-- Python dict assignment `d[k] = v` on an association list: replace the
value in place if the key exists, else append. -/
def upsert : List (String × String) → String → String → List (String × String)
  | [], k, v => [(k, v)]
  | (k', v') :: t, k, v =>
    if k' = k then (k, v) :: t else (k', v') :: upsert t k v

/-- Key lookup in the association list. -/
def lookupKey : List (String × String) → String → Option String
  | [], _ => none
  | (k', v') :: t, k => if k' = k then some v' else lookupKey t k

/-- The key-dispatch chain of `_process_infobox_field` (lines 223-242),
applied after the cleaned value has been stored in `raw_infobox`. -/
def applyFieldMapping (key rawValue value : String) (facts : CompanyFacts) :
    CompanyFacts :=
  if key = "founded" ∨ key = "foundation" ∨ key = "founding_date" then
    { facts with founding_date := some value }
  else if key = "founder" then
    { facts with founders := split_list value }
  else if key = "location" ∨ key = "headquarters" ∨ key = "hq_location" ∨
      key = "hq_location_city" then
    { facts with headquarters := some value }
  else if key = "industry" then
    { facts with industry := some value }
  else if key = "products" ∨ key = "services" then
    { facts with products := split_list value }
  else if key = "num_employees" ∨ key = "employees" ∨ key = "num_employees_year" then
    { facts with employees := some value }
  else if key = "key_people" ∨ key = "ceo" then
    match extract_ceo rawValue with
    | some c => if c = "" then facts else { facts with ceo := some c }
    | none => facts
  else if key = "revenue" then
    { facts with revenue := some value }
  else facts

/-- `_process_infobox_field` of wikipedia.py: normalize the value; an
empty cleaned value aborts the field; otherwise store the audit entry and
run the key dispatch (the CEO branch looks at the RAW value). -/
def process_infobox_field (key rawValue : String) (facts : CompanyFacts) :
    CompanyFacts :=
  if normalizeValue rawValue = "" then facts
  else
    applyFieldMapping key rawValue (normalizeValue rawValue)
      { facts with
          raw_infobox := upsert facts.raw_infobox key (normalizeValue rawValue) }

/-! ## The brace-balanced infobox locator of `_parse_infobox` -/

/-- Try the marker regex (brace brace `Infobox[_ ]company`, IGNORECASE) at
the head of the input; returns the rest after the marker (the scan of the
source starts at `infobox_start.end()`). -/
def tryInfoboxMarker : List Char → Option (List Char)
  | '\x7b' :: '\x7b' :: r1 =>
    match matchCaseless "infobox".data r1 with
    | none => none
    | some (c :: r2) =>
      if c = '_' ∨ c = ' ' then matchCaseless "company".data r2 else none
    | some [] => none
  | _ => none

/-- Leftmost search for the infobox marker (`re.search` in line 138). -/
def searchInfoboxMarker : List Char → Option (List Char)
  | [] => none
  | c :: cs =>
    match tryInfoboxMarker (c :: cs) with
    | some r => some r
    | none => searchInfoboxMarker cs

/-- The brace-counting loop of lines 145-162: the counter starts at 1 for
the already-consumed opening braces; each double open brace increments it
and each double close brace decrements it; when it reaches 0 the current
index is the end position.  Returns `none` when the scan runs off the end
of the text without closing. -/
def braceScan : List Char → Nat → Nat → Option Nat
  | '\x7b' :: '\x7b' :: rest, cnt, i => braceScan rest (cnt + 1) (i + 2)
  | '\x7d' :: '\x7d' :: rest, cnt, i =>
    if cnt = 1 then some i else braceScan rest (cnt - 1) (i + 2)
  | _ :: rest, cnt, i => braceScan rest cnt (i + 1)
  | [], _, _ => none

/-- `end_pos`: the scan result, defaulting to the length of the remaining
text when the braces never close (line 146). -/
def infoboxEnd (remaining : List Char) : Nat :=
  (braceScan remaining 1 0).getD remaining.length

/-- `infobox_text = remaining[:end_pos]` (line 164). -/
def infoboxSpan (remaining : List Char) : List Char :=
  remaining.take (infoboxEnd remaining)

/-! ## The dual-format field parser -/

/-- Partition a single-line segment at its first equals sign (Python
`part.partition('=')`) and normalize: the key is stripped, lowered and has
spaces replaced by underscores; the value is stripped (lines 181-183). -/
def parseSegment (part : List Char) : String × String :=
  (spacesToUnderscores (pyLower (pyStrip ⟨part.takeWhile (fun c => c != '=')⟩)),
    pyStrip ⟨part.drop ((part.takeWhile (fun c => c != '=')).length + 1)⟩)

/-- One segment of the single-line format: if it contains an equals sign,
partition and normalize it, and process the field when both the key and
the value are non-empty (`_parse_single_line_infobox`, lines 179-185). -/
def singleStep (facts : CompanyFacts) (part : List Char) : CompanyFacts :=
  if part.contains '=' then
    if (parseSegment part).1 ≠ "" ∧ (parseSegment part).2 ≠ "" then
      process_infobox_field (parseSegment part).1 (parseSegment part).2 facts
    else facts
  else facts

/-- `_parse_single_line_infobox`: split the body on pipes and process each
`key=value` segment. -/
def parse_single_line_infobox (infoboxText : String) (facts : CompanyFacts) :
    CompanyFacts :=
  (splitChar '|' infoboxText.data).foldl singleStep facts

/-- The field-start regex of `_parse_multiline_infobox` (line 197):
leading whitespace, a pipe, whitespace, a key token of one or two
word-character groups joined by one whitespace or underscore, whitespace,
an equals sign, whitespace, then the rest of the line.  Returns the
normalized key (lower, strip, spaces to underscores) and the value. -/
def matchFieldLine (line : List Char) : Option (String × String) :=
  match line.dropWhile isPySpace with
  | '|' :: r2 =>
    let r3 := r2.dropWhile isPySpace
    let w1 := r3.takeWhile isWordChar
    if w1.isEmpty then none
    else
      let r4 := r3.drop w1.length
      let finish := fun (keyChars rest : List Char) =>
        match rest.dropWhile isPySpace with
        | '=' :: r7 =>
          some (spacesToUnderscores ⟨pyStripList (keyChars.map Char.toLower)⟩,
            (⟨r7.dropWhile isPySpace⟩ : String))
        | _ => none
      let withGroup := match r4 with
        | c :: r5 =>
          if isPySpace c || c = '_' then
            let w2 := r5.takeWhile isWordChar
            if w2.isEmpty then none
            else finish (w1 ++ c :: w2) (r5.drop w2.length)
          else none
        | [] => none
      match withGroup with
      | some kv => some kv
      | none => finish w1 r4
  | _ => none

/-- A stripped line starting with two closing braces (the continuation
test of line 204). -/
def startsWithCloseBraces : List Char → Bool
  | '\x7d' :: '\x7d' :: _ => true
  | _ => false

/-- Python truthiness of the `current_key` variable (an optional string). -/
def truthyKey : Option String → Bool
  | none => false
  | some k => k ≠ ""

/-- Flush an in-progress field (`if current_key and current_value:`),
joining the accumulated pieces with spaces. -/
def flushField (ck : Option String) (cv : List String) (facts : CompanyFacts) :
    CompanyFacts :=
  if truthyKey ck ∧ cv ≠ [] then
    process_infobox_field (ck.getD "") (" ".intercalate cv) facts
  else facts

/-- One line of the multi-line loop: a field-start line flushes the
previous field and opens a new one; otherwise a non-empty line that is not
a closing-braces line continues the current field. -/
def multiStep : Option String × List String × CompanyFacts → List Char →
    Option String × List String × CompanyFacts
  | (ck, cv, facts), line =>
    match matchFieldLine line with
    | some (k, v) => (some k, [v], flushField ck cv facts)
    | none =>
      if truthyKey ck ∧ ¬ (pyStripList line).isEmpty ∧
          ¬ startsWithCloseBraces (pyStripList line) then
        (ck, cv ++ [(⟨pyStripList line⟩ : String)], facts)
      else (ck, cv, facts)

/-- Flush the final in-progress field after the loop (lines 209-210). -/
def finishMultiline : Option String × List String × CompanyFacts → CompanyFacts
  | (ck, cv, facts) => flushField ck cv facts

/-- `_parse_multiline_infobox`: iterate over the lines accumulating the
current field, then flush the last one. -/
def parse_multiline_infobox (infoboxText : String) (facts : CompanyFacts) :
    CompanyFacts :=
  finishMultiline ((splitChar '\n' infoboxText.data).foldl multiStep
    (none, [], facts))

/-- The format dispatch of lines 166-173: single-line when the stripped
body has no newline or the body has more pipes than newlines, multi-line
otherwise. -/
def parseInfoboxBody (infoboxText : String) (facts : CompanyFacts) :
    CompanyFacts :=
  if ¬ (pyStrip infoboxText).data.contains '\n' ∨
      infoboxText.data.count '\n' < infoboxText.data.count '|' then
    parse_single_line_infobox infoboxText facts
  else
    parse_multiline_infobox infoboxText facts

/-- `_parse_infobox` of wikipedia.py: locate the marker (no fallback
exists for other infobox kinds), take the brace-balanced span, then
dispatch on the format of the body. -/
def parse_infobox (wikitext : String) (facts : CompanyFacts) : CompanyFacts :=
  match searchInfoboxMarker wikitext.data with
  | none => facts
  | some remaining => parseInfoboxBody ⟨infoboxSpan remaining⟩ facts

/-- The frame of the parse: the fields of `CompanyFacts` that the infobox
parser is not supposed to touch. -/
def framePreserved (old new : CompanyFacts) : Prop :=
  new.company_name = old.company_name ∧
  new.wikipedia_url = old.wikipedia_url ∧
  new.summary = old.summary

/-! ## General lemmas about the fact mapper -/

theorem lookupKey_upsert (l : List (String × String)) (k v : String) :
    lookupKey (upsert l k v) k = some v := by
  induction l with
  | nil => simp [upsert, lookupKey]
  | cons h t ih =>
    obtain ⟨k', v'⟩ := h
    by_cases hk : k' = k
    · simp [upsert, hk, lookupKey]
    · simp [upsert, hk, lookupKey, ih]

theorem applyFieldMapping_raw_infobox (key rawValue value : String)
    (f : CompanyFacts) :
    (applyFieldMapping key rawValue value f).raw_infobox = f.raw_infobox := by
  unfold applyFieldMapping
  repeat' split
  all_goals rfl

theorem applyFieldMapping_frame (key rawValue value : String) (f : CompanyFacts) :
    framePreserved f (applyFieldMapping key rawValue value f) := by
  unfold applyFieldMapping
  repeat' split
  all_goals exact ⟨rfl, rfl, rfl⟩

theorem process_infobox_field_eq (key rawValue : String) (f : CompanyFacts)
    (hv : normalizeValue rawValue ≠ "") :
    process_infobox_field key rawValue f =
      applyFieldMapping key rawValue (normalizeValue rawValue)
        { f with raw_infobox := upsert f.raw_infobox key (normalizeValue rawValue) } := by
  unfold process_infobox_field
  rw [if_neg hv]

theorem process_infobox_field_frame (key rawValue : String) (f : CompanyFacts) :
    framePreserved f (process_infobox_field key rawValue f) := by
  unfold process_infobox_field
  split
  · exact ⟨rfl, rfl, rfl⟩
  · exact applyFieldMapping_frame key rawValue (normalizeValue rawValue)
      { f with raw_infobox := upsert f.raw_infobox key (normalizeValue rawValue) }

theorem framePreserved_trans {a b c : CompanyFacts} (h1 : framePreserved a b)
    (h2 : framePreserved b c) : framePreserved a c :=
  ⟨h2.1.trans h1.1, h2.2.1.trans h1.2.1, h2.2.2.trans h1.2.2⟩

theorem singleStep_frame (f : CompanyFacts) (part : List Char) :
    framePreserved f (singleStep f part) := by
  unfold singleStep
  split
  · split
    · exact process_infobox_field_frame _ _ _
    · exact ⟨rfl, rfl, rfl⟩
  · exact ⟨rfl, rfl, rfl⟩

theorem foldl_singleStep_frame (parts : List (List Char)) (f : CompanyFacts) :
    framePreserved f (parts.foldl singleStep f) := by
  induction parts generalizing f with
  | nil => exact ⟨rfl, rfl, rfl⟩
  | cons p ps ih =>
    exact framePreserved_trans (singleStep_frame f p) (ih (singleStep f p))

theorem flushField_frame (ck : Option String) (cv : List String)
    (f : CompanyFacts) : framePreserved f (flushField ck cv f) := by
  unfold flushField
  split
  · exact process_infobox_field_frame _ _ _
  · exact ⟨rfl, rfl, rfl⟩

theorem multiStep_frame (st : Option String × List String × CompanyFacts)
    (line : List Char) : framePreserved st.2.2 (multiStep st line).2.2 := by
  obtain ⟨ck, cv, f⟩ := st
  show framePreserved f (multiStep (ck, cv, f) line).2.2
  unfold multiStep
  cases h : matchFieldLine line with
  | some kv =>
    obtain ⟨k, v⟩ := kv
    simp only [h]
    exact flushField_frame _ _ _
  | none =>
    simp only [h]
    split
    · exact ⟨rfl, rfl, rfl⟩
    · exact ⟨rfl, rfl, rfl⟩

theorem foldl_multiStep_frame (lines : List (List Char))
    (st : Option String × List String × CompanyFacts) :
    framePreserved st.2.2 ((lines.foldl multiStep st).2.2) := by
  induction lines generalizing st with
  | nil => exact ⟨rfl, rfl, rfl⟩
  | cons l ls ih =>
    exact framePreserved_trans (multiStep_frame st l) (ih (multiStep st l))

theorem parse_multiline_infobox_frame (t : String) (f : CompanyFacts) :
    framePreserved f (parse_multiline_infobox t f) := by
  unfold parse_multiline_infobox finishMultiline
  have h := foldl_multiStep_frame (splitChar '\n' t.data) (none, [], f)
  exact framePreserved_trans h (by
    obtain ⟨ck, cv, f'⟩ := (splitChar '\n' t.data).foldl multiStep (none, [], f)
    exact flushField_frame ck cv f')

theorem parseInfoboxBody_frame (t : String) (f : CompanyFacts) :
    framePreserved f (parseInfoboxBody t f) := by
  unfold parseInfoboxBody
  split
  · exact foldl_singleStep_frame _ f
  · exact parse_multiline_infobox_frame t f

/-! ## The claim theorems -/

/-- C10: for every wikitext input and every CompanyFacts value, infobox
parsing leaves the company_name, wikipedia_url and summary fields
unchanged (only the infobox-derived fields are mutated). -/
theorem c10_parse_infobox_frame (w : String) (f : CompanyFacts) :
    (parse_infobox w f).company_name = f.company_name ∧
    (parse_infobox w f).wikipedia_url = f.wikipedia_url ∧
    (parse_infobox w f).summary = f.summary := by
  unfold parse_infobox
  cases h : searchInfoboxMarker w.data with
  | none => simp [h]
  | some remaining => simp only [h]; exact parseInfoboxBody_frame _ f

/-- C1: evaluation of the code at the spec's example input.  The locator
does find the infobox's true end (the body runs to after industry=Tech),
but the single-line field parser then splits the body on every pipe --
including the pipes inside the nested start-date template -- so the
founded field's value becomes the opening of the template and
founding_date ends up as that fragment instead of 1998-09-04; industry is
parsed as Tech as the claim states. -/
theorem c1_nested_template_eval :
    (searchInfoboxMarker
      "\x7b\x7bInfobox company|founded=\x7b\x7bStart date|1998|9|4\x7d\x7d|industry=Tech\x7d\x7d".data).map
        (fun r => (⟨infoboxSpan r⟩ : String)) =
      some "|founded=\x7b\x7bStart date|1998|9|4\x7d\x7d|industry=Tech" ∧
    (parse_infobox
      "\x7b\x7bInfobox company|founded=\x7b\x7bStart date|1998|9|4\x7d\x7d|industry=Tech\x7d\x7d"
      (CompanyFacts.init "Google")).founding_date = some "\x7b\x7bStart date" ∧
    (parse_infobox
      "\x7b\x7bInfobox company|founded=\x7b\x7bStart date|1998|9|4\x7d\x7d|industry=Tech\x7d\x7d"
      (CompanyFacts.init "Google")).industry = some "Tech" := by
  refine ⟨by decide, by decide, by decide⟩

/-- C2 counterexample: in a parsed infobox with two fields of the same
semantic group (a duplicated founded key, or founded followed by its
synonym foundation), founding_date holds the value of the LAST field, not
the first as the claim states. -/
theorem c2_counterexample :
    (parse_infobox "\x7b\x7bInfobox company|founded=1998|founded=2000\x7d\x7d"
      (CompanyFacts.init "G")).founding_date = some "2000" ∧
    (parse_infobox "\x7b\x7bInfobox company|founded=1998|foundation=2000\x7d\x7d"
      (CompanyFacts.init "G")).founding_date = some "2000" ∧
    (some "2000" : Option String) ≠ some "1998" := by
  refine ⟨by decide, by decide, by decide⟩

/-- C2 amended: processing a field with a non-empty cleaned value sets
its attribute to THAT field's value regardless of the previous facts, for
every attribute group -- founding_date, founders, headquarters, industry,
products, employees and revenue are assigned unconditionally, so the last
processed field of a group wins and a later field always overwrites an
attribute set earlier; for the ceo attribute (keys key_people and ceo)
the later field overwrites exactly when CEO extraction returns a
non-empty name, and otherwise the earlier value is kept. -/
theorem c2_last_match_wins :
    (∀ (k rv : String) (f : CompanyFacts),
      (k = "founded" ∨ k = "foundation" ∨ k = "founding_date") →
      normalizeValue rv ≠ "" →
      (process_infobox_field k rv f).founding_date = some (normalizeValue rv)) ∧
    (∀ (rv : String) (f : CompanyFacts), normalizeValue rv ≠ "" →
      (process_infobox_field "founder" rv f).founders =
        split_list (normalizeValue rv)) ∧
    (∀ (k rv : String) (f : CompanyFacts),
      (k = "location" ∨ k = "headquarters" ∨ k = "hq_location" ∨
        k = "hq_location_city") →
      normalizeValue rv ≠ "" →
      (process_infobox_field k rv f).headquarters = some (normalizeValue rv)) ∧
    (∀ (rv : String) (f : CompanyFacts), normalizeValue rv ≠ "" →
      (process_infobox_field "industry" rv f).industry =
        some (normalizeValue rv)) ∧
    (∀ (k rv : String) (f : CompanyFacts), (k = "products" ∨ k = "services") →
      normalizeValue rv ≠ "" →
      (process_infobox_field k rv f).products =
        split_list (normalizeValue rv)) ∧
    (∀ (k rv : String) (f : CompanyFacts),
      (k = "num_employees" ∨ k = "employees" ∨ k = "num_employees_year") →
      normalizeValue rv ≠ "" →
      (process_infobox_field k rv f).employees = some (normalizeValue rv)) ∧
    (∀ (rv : String) (f : CompanyFacts), normalizeValue rv ≠ "" →
      (process_infobox_field "revenue" rv f).revenue =
        some (normalizeValue rv)) ∧
    (∀ (k rv : String) (f : CompanyFacts), (k = "key_people" ∨ k = "ceo") →
      normalizeValue rv ≠ "" →
      (process_infobox_field k rv f).ceo =
        (match extract_ceo rv with
          | some c => if c = "" then f.ceo else some c
          | none => f.ceo)) := by
  refine ⟨?_, ?_, ?_, ?_, ?_, ?_, ?_, ?_⟩
  · intro k rv f hk hv
    rw [process_infobox_field_eq k rv f hv]
    rcases hk with h | h | h <;> subst h <;> simp [applyFieldMapping]
  · intro rv f hv
    rw [process_infobox_field_eq "founder" rv f hv]
    simp [applyFieldMapping]
  · intro k rv f hk hv
    rw [process_infobox_field_eq k rv f hv]
    rcases hk with h | h | h | h <;> subst h <;> simp [applyFieldMapping]
  · intro rv f hv
    rw [process_infobox_field_eq "industry" rv f hv]
    simp [applyFieldMapping]
  · intro k rv f hk hv
    rw [process_infobox_field_eq k rv f hv]
    rcases hk with h | h <;> subst h <;> simp [applyFieldMapping]
  · intro k rv f hk hv
    rw [process_infobox_field_eq k rv f hv]
    rcases hk with h | h | h <;> subst h <;> simp [applyFieldMapping]
  · intro rv f hv
    rw [process_infobox_field_eq "revenue" rv f hv]
    simp [applyFieldMapping]
  · intro k rv f hk hv
    rw [process_infobox_field_eq k rv f hv]
    rcases hk with h | h <;> subst h <;>
      (cases hE : extract_ceo rv with
        | none => simp [applyFieldMapping, hE]
        | some c => by_cases hc : c = "" <;> simp [applyFieldMapping, hE, hc])

/-- Witness for C2: a foundation field overwrites an already-set
founding_date, while a later key_people field whose CEO extraction yields
only an empty name leaves an already-set ceo unchanged. -/
theorem c2_witness :
    (process_infobox_field "foundation" "2000"
      { CompanyFacts.init "G" with founding_date := some "1998" }).founding_date =
      some (normalizeValue "2000") ∧
    (process_infobox_field "key_people" ","
      { CompanyFacts.init "G" with ceo := some "Old CEO" }).ceo =
      (match extract_ceo "," with
        | some c => if c = "" then some "Old CEO" else some c
        | none => some "Old CEO") :=
  ⟨c2_last_match_wins.1 "foundation" "2000"
      { CompanyFacts.init "G" with founding_date := some "1998" }
      (Or.inr (Or.inl rfl)) (by decide),
    c2_last_match_wins.2.2.2.2.2.2.2 "key_people" ","
      { CompanyFacts.init "G" with ceo := some "Old CEO" }
      (Or.inl rfl) (by decide)⟩

/-- C4 counterexample: a field whose cleaned value is empty (a value that
is nothing but a template, here a logo field) is dropped entirely -- the
mapper returns before storing anything, so rawInfobox does NOT record the
field, contradicting the claim that every parsed field is stored. -/
theorem c4_counterexample :
    process_infobox_field "logo" "\x7b\x7blogo\x7d\x7d" (CompanyFacts.init "X") =
      CompanyFacts.init "X" ∧
    lookupKey (process_infobox_field "logo" "\x7b\x7blogo\x7d\x7d"
      (CompanyFacts.init "X")).raw_infobox "logo" = none := by
  refine ⟨by decide, by decide⟩

/-- C4 amended: for every field whose CLEANED value is non-empty, the
mapper stores rawInfobox[key] = cleanedValue regardless of whether the key
maps to a named attribute; fields cleaning to empty are dropped. -/
theorem c4_raw_infobox_stores (k rv : String) (f : CompanyFacts)
    (hv : normalizeValue rv ≠ "") :
    lookupKey (process_infobox_field k rv f).raw_infobox k =
      some (normalizeValue rv) := by
  rw [process_infobox_field_eq k rv f hv, applyFieldMapping_raw_infobox]
  exact lookupKey_upsert f.raw_infobox k (normalizeValue rv)

/-- Witness for C4: an unmapped key with a non-empty value is recorded. -/
theorem c4_witness :
    lookupKey (process_infobox_field "motto" "Do the right thing"
      (CompanyFacts.init "X")).raw_infobox "motto" =
      some (normalizeValue "Do the right thing") :=
  c4_raw_infobox_stores "motto" "Do the right thing" (CompanyFacts.init "X")
    (by decide)

/-- C5 counterexample: wikitext with a generic infobox marker followed by
a pipe but without the company marker is NOT parsed at all -- the code has
no generic-infobox fallback, so the parse returns the facts unchanged
(industry stays unset) although the claim requires the generic infobox to
be located. -/
theorem c5_counterexample :
    parse_infobox "\x7b\x7bInfobox person|industry=Tech\x7d\x7d"
      (CompanyFacts.init "X") = CompanyFacts.init "X" ∧
    (parse_infobox "\x7b\x7bInfobox person|industry=Tech\x7d\x7d"
      (CompanyFacts.init "X")).industry = none := by
  refine ⟨by decide, by decide⟩

/-- C5 amended: the locator searches case-insensitively for the literal
company-infobox marker only (space or underscore variant); when that
marker is absent the parse reports absence by returning the facts
unchanged -- no error, and no generic-infobox fallback exists. -/
theorem c5_company_marker_only :
    (∀ (w : String) (f : CompanyFacts),
      searchInfoboxMarker w.data = none → parse_infobox w f = f) ∧
    (parse_infobox "\x7b\x7bINFOBOX_COMPANY|industry=Tech\x7d\x7d"
      (CompanyFacts.init "X")).industry = some "Tech" := by
  constructor
  · intro w f h
    unfold parse_infobox
    rw [h]
  · decide

/-- Witness for C5: wikitext with no company marker is left unparsed. -/
theorem c5_witness :
    parse_infobox "no infobox here" (CompanyFacts.init "X") =
      CompanyFacts.init "X" :=
  c5_company_marker_only.1 "no infobox here" (CompanyFacts.init "X") (by decide)

/-- C6 counterexample: a location_city field reaches the mapper (its value
is recorded in rawInfobox) but headquarters is NOT set, because the key
tuple in the source omits location_city. -/
theorem c6_counterexample :
    (parse_infobox "\x7b\x7bInfobox company|location_city=Paris\x7d\x7d"
      (CompanyFacts.init "X")).headquarters = none ∧
    lookupKey (parse_infobox "\x7b\x7bInfobox company|location_city=Paris\x7d\x7d"
      (CompanyFacts.init "X")).raw_infobox "location_city" = some "Paris" := by
  refine ⟨by decide, by decide⟩

/-- C6 amended: the keys location, headquarters, hq_location and
hq_location_city set the headquarters attribute (to the cleaned value);
the key location_city does not -- it leaves headquarters unchanged and is
only recorded in rawInfobox. -/
theorem c6_headquarters_keys :
    (∀ (k v : String) (f : CompanyFacts),
      (k = "location" ∨ k = "headquarters" ∨ k = "hq_location" ∨
        k = "hq_location_city") →
      normalizeValue v ≠ "" →
      (process_infobox_field k v f).headquarters = some (normalizeValue v)) ∧
    ∀ (v : String) (f : CompanyFacts),
      (process_infobox_field "location_city" v f).headquarters =
        f.headquarters := by
  constructor
  · intro k v f hk hv
    rw [process_infobox_field_eq k v f hv]
    rcases hk with h | h | h | h <;> subst h <;> rfl
  · intro v f
    unfold process_infobox_field
    split
    · rfl
    · rfl

/-- Witness for C6: an hq_location field sets headquarters. -/
theorem c6_witness :
    (process_infobox_field "hq_location" "Paris"
      (CompanyFacts.init "X")).headquarters = some (normalizeValue "Paris") :=
  c6_headquarters_keys.1 "hq_location" "Paris" (CompanyFacts.init "X")
    (Or.inr (Or.inr (Or.inl rfl))) (by decide)

/-- C8: CEO extraction on the raw key_people value returns Sundar Pichai
for the three markup conventions of the claim (wiki-link form,
parenthetical form, trailing-title form). -/
theorem c8_ceo_extraction :
    extract_ceo "[[Sundar Pichai]] ([[Chief executive officer|CEO]])" =
      some "Sundar Pichai" ∧
    extract_ceo "Sundar Pichai (CEO)" = some "Sundar Pichai" ∧
    extract_ceo "Sundar Pichai CEO, Ruth Porat CFO" = some "Sundar Pichai" := by
  refine ⟨by decide, by decide, by decide⟩

/-- C9: the parsing core is total by construction (every function of this
embedding is a total Lean function, mirroring the fact that the Python
core raises no exception on any string), and an infobox whose braces never
close is treated as extending to the end of the text: whenever the brace
scan finds no balanced closing, the extracted span is the whole remaining
text.  The second conjunct runs the full pipeline on an unterminated
infobox and still recovers the founded field. -/
theorem c9_unterminated_extends_to_end :
    (∀ remaining : List Char, braceScan remaining 1 0 = none →
      infoboxSpan remaining = remaining) ∧
    (parse_infobox "\x7b\x7bInfobox company|founded=1998"
      (CompanyFacts.init "G")).founding_date = some "1998" := by
  constructor
  · intro r h
    unfold infoboxSpan infoboxEnd
    rw [h]
    exact List.take_length r
  · decide

/-- Witness for C9: a remainder with no closing braces is taken whole. -/
theorem c9_witness :
    infoboxSpan "|founded=1998".data = "|founded=1998".data :=
  c9_unterminated_extends_to_end.1 "|founded=1998".data (by decide)

/-! ## Lemmas for C3: the start-date search in context -/

theorem tryStartDate_none (c : Char) (cs : List Char) (h : c ≠ '\x7b') :
    tryStartDate (c :: cs) = none := by
  rw [tryStartDate.eq_def]
  split
  · rename_i heq
    injection heq with h1 _
    exact absurd h1 h
  · rfl

theorem searchStartDate_cons (c : Char) (cs : List Char) (h : c ≠ '\x7b') :
    searchStartDate (c :: cs) = searchStartDate cs := by
  simp [searchStartDate, tryStartDate_none c cs h]

theorem searchStartDate_append (pre l : List Char)
    (hpre : ∀ c ∈ pre, c ≠ '\x7b') :
    searchStartDate (pre ++ l) = searchStartDate l := by
  induction pre with
  | nil => rfl
  | cons c cs ih =>
    rw [List.cons_append, searchStartDate_cons c _ (hpre c (List.mem_cons_self c cs))]
    exact ih (fun c' hc' => hpre c' (List.mem_cons_of_mem c hc'))

theorem searchStartDate_of_try (c : Char) (cs : List Char)
    (g : List Char × List Char × List Char) (h : tryStartDate (c :: cs) = some g) :
    searchStartDate (c :: cs) = some g := by
  simp [searchStartDate, h]

theorem matchCaseless_start_date (l : List Char) :
    matchCaseless ['s', 't', 'a', 'r', 't', ' ', 'd', 'a', 't', 'e']
      (['S', 't', 'a', 'r', 't', ' ', 'd', 'a', 't', 'e'] ++ l) = some l := rfl

theorem dropWhile_until_pipe (filler l : List Char)
    (hfill : ∀ c ∈ filler, c ≠ '|') :
    (filler ++ '|' :: l).dropWhile (fun c => c != '|') = '|' :: l := by
  induction filler with
  | nil => exact List.dropWhile_cons_of_neg (by decide)
  | cons c cs ih =>
    rw [List.cons_append, List.dropWhile_cons_of_pos
      (by simpa using hfill c (List.mem_cons_self c cs))]
    exact ih (fun c' hc' => hfill c' (List.mem_cons_of_mem c hc'))

theorem dropPipe_pipe (t : List Char) : dropPipe ('|' :: t) = t := rfl

theorem dropPipe_brace (t : List Char) : dropPipe ('\x7d' :: t) = '\x7d' :: t := rfl

theorem takeDigits_exact (m rest : List Char) (hm : ∀ c ∈ m, c.isDigit = true)
    (hlen : m.length ≤ 2)
    (hstop : ∀ c, rest.head? = some c → c.isDigit = false) :
    takeDigitsUpTo 2 (m ++ rest) = (m, rest) := by
  rcases m with _ | ⟨a, _ | ⟨b, _ | ⟨e, t⟩⟩⟩
  · cases rest with
    | nil => rfl
    | cons c t => simp [takeDigitsUpTo, hstop c rfl]
  · have ha := hm a (List.mem_cons_self a [])
    cases rest with
    | nil => simp [takeDigitsUpTo, ha]
    | cons c t => simp [takeDigitsUpTo, ha, hstop c rfl]
  · have ha := hm a (by simp)
    have hb := hm b (by simp)
    simp [takeDigitsUpTo, ha, hb]
  · exfalso
    simp only [List.length_cons] at hlen
    omega

theorem tryStartDate_eval_ymd (filler : List Char) (y1 y2 y3 y4 : Char)
    (m d post : List Char)
    (hfill : ∀ c ∈ filler, c ≠ '|')
    (hy : (y1.isDigit && y2.isDigit && y3.isDigit && y4.isDigit) = true)
    (hm : ∀ c ∈ m, c.isDigit = true) (hm2 : m.length ≤ 2)
    (hd : ∀ c ∈ d, c.isDigit = true) (hd2 : d.length ≤ 2) :
    tryStartDate ('\x7b' :: '\x7b' :: ("Start date".data ++
        (filler ++ '|' :: y1 :: y2 :: y3 :: y4 :: '|' ::
          (m ++ '|' :: (d ++ '\x7d' :: '\x7d' :: post))))) =
      some ([y1, y2, y3, y4], m, d) := by
  have h3 : takeDigitsUpTo 2 (m ++ '|' :: (d ++ '\x7d' :: '\x7d' :: post)) =
      (m, '|' :: (d ++ '\x7d' :: '\x7d' :: post)) :=
    takeDigits_exact m _ hm hm2 (fun c hc => by cases hc; decide)
  have h4 : takeDigitsUpTo 2 (d ++ '\x7d' :: '\x7d' :: post) =
      (d, '\x7d' :: '\x7d' :: post) :=
    takeDigits_exact d _ hd hd2 (fun c hc => by cases hc; decide)
  simp only [tryStartDate, matchCaseless_start_date,
    dropWhile_until_pipe filler _ hfill, hy, dropPipe_pipe, h3, h4, if_true]

theorem tryStartDate_eval_ym (filler : List Char) (y1 y2 y3 y4 : Char)
    (m post : List Char)
    (hfill : ∀ c ∈ filler, c ≠ '|')
    (hy : (y1.isDigit && y2.isDigit && y3.isDigit && y4.isDigit) = true)
    (hm : ∀ c ∈ m, c.isDigit = true) (hm2 : m.length ≤ 2) :
    tryStartDate ('\x7b' :: '\x7b' :: ("Start date".data ++
        (filler ++ '|' :: y1 :: y2 :: y3 :: y4 :: '|' ::
          (m ++ '\x7d' :: '\x7d' :: post)))) =
      some ([y1, y2, y3, y4], m, []) := by
  have h3 : takeDigitsUpTo 2 (m ++ '\x7d' :: '\x7d' :: post) =
      (m, '\x7d' :: '\x7d' :: post) :=
    takeDigits_exact m _ hm hm2 (fun c hc => by cases hc; decide)
  have h4 : takeDigitsUpTo 2 ('\x7d' :: '\x7d' :: post) =
      ([], '\x7d' :: '\x7d' :: post) :=
    takeDigits_exact [] _ (by simp) (by simp) (fun c hc => by cases hc; decide)
  simp only [tryStartDate, matchCaseless_start_date,
    dropWhile_until_pipe filler _ hfill, hy, dropPipe_pipe, dropPipe_brace,
    h3, h4, if_true]

theorem tryStartDate_eval_y (filler : List Char) (y1 y2 y3 y4 : Char)
    (post : List Char)
    (hfill : ∀ c ∈ filler, c ≠ '|')
    (hy : (y1.isDigit && y2.isDigit && y3.isDigit && y4.isDigit) = true) :
    tryStartDate ('\x7b' :: '\x7b' :: ("Start date".data ++
        (filler ++ '|' :: y1 :: y2 :: y3 :: y4 ::
          '\x7d' :: '\x7d' :: post))) =
      some ([y1, y2, y3, y4], [], []) := by
  have h3 : takeDigitsUpTo 2 ('\x7d' :: '\x7d' :: post) =
      ([], '\x7d' :: '\x7d' :: post) :=
    takeDigits_exact [] _ (by simp) (by simp) (fun c hc => by cases hc; decide)
  simp only [tryStartDate, matchCaseless_start_date,
    dropWhile_until_pipe filler _ hfill, hy, dropPipe_brace, h3, if_true]

/-- C3 counterexample: a field value with text around the start-date
template is NOT cleaned around the match -- extraction returns only the
date and discards the surrounding text, contradicting the claim that the
rest of the field value is left intact. -/
theorem c3_counterexample :
    extract_from_templates "Founded \x7b\x7bStart date|1998|9|4\x7d\x7d in California" =
      "1998-09-04" ∧
    ("1998-09-04" : String) ≠ "Founded 1998-09-04 in California" := by
  refine ⟨by decide, by decide⟩

/-- C3 amended: for every field value made of brace-free text followed by
a start-date template -- with any pipe-free filler after the template
name, any four-digit year, and an optional one-or-two-digit month and day
-- followed by arbitrary text, template extraction replaces the ENTIRE
field value with the textual date YYYY, YYYY-MM or YYYY-MM-DD (the month
and day zero-padded to two digits) according to how many parts are
present; the text around the match is discarded, not preserved. -/
theorem c3_whole_value_replaced (pre filler post m d : List Char)
    (y1 y2 y3 y4 : Char)
    (hpre : ∀ c ∈ pre, c ≠ '\x7b')
    (hfill : ∀ c ∈ filler, c ≠ '|')
    (hy : (y1.isDigit && y2.isDigit && y3.isDigit && y4.isDigit) = true)
    (hm : ∀ c ∈ m, c.isDigit = true) (hm1 : m ≠ []) (hm2 : m.length ≤ 2)
    (hd : ∀ c ∈ d, c.isDigit = true) (hd1 : d ≠ []) (hd2 : d.length ≤ 2) :
    extract_from_templatesL (pre ++ '\x7b' :: '\x7b' :: ("Start date".data ++
        (filler ++ '|' :: y1 :: y2 :: y3 :: y4 :: '|' ::
          (m ++ '|' :: (d ++ '\x7d' :: '\x7d' :: post))))) =
      [y1, y2, y3, y4] ++ '-' :: (zfill2 m ++ '-' :: zfill2 d) ∧
    extract_from_templatesL (pre ++ '\x7b' :: '\x7b' :: ("Start date".data ++
        (filler ++ '|' :: y1 :: y2 :: y3 :: y4 :: '|' ::
          (m ++ '\x7d' :: '\x7d' :: post)))) =
      [y1, y2, y3, y4] ++ '-' :: zfill2 m ∧
    extract_from_templatesL (pre ++ '\x7b' :: '\x7b' :: ("Start date".data ++
        (filler ++ '|' :: y1 :: y2 :: y3 :: y4 :: '\x7d' :: '\x7d' :: post))) =
      [y1, y2, y3, y4] := by
  refine ⟨?_, ?_, ?_⟩
  · unfold extract_from_templatesL
    rw [searchStartDate_append pre _ hpre,
      searchStartDate_of_try _ _ _
        (tryStartDate_eval_ymd filler y1 y2 y3 y4 m d post hfill hy hm hm2 hd hd2)]
    show formatStartDate [y1, y2, y3, y4] m d = _
    unfold formatStartDate
    rw [if_pos ⟨hm1, hd1⟩]
  · unfold extract_from_templatesL
    rw [searchStartDate_append pre _ hpre,
      searchStartDate_of_try _ _ _
        (tryStartDate_eval_ym filler y1 y2 y3 y4 m post hfill hy hm hm2)]
    show formatStartDate [y1, y2, y3, y4] m [] = _
    unfold formatStartDate
    rw [if_neg (by simp), if_pos hm1]
  · unfold extract_from_templatesL
    rw [searchStartDate_append pre _ hpre,
      searchStartDate_of_try _ _ _
        (tryStartDate_eval_y filler y1 y2 y3 y4 post hfill hy)]
    show formatStartDate [y1, y2, y3, y4] [] [] = _
    unfold formatStartDate
    rw [if_neg (by simp), if_neg (by simp)]


/-! ## Lemmas for C7: the cleaning passes are the identity on text with no
markup-trigger character, so normalizeValue reduces there to whitespace
normalization -/

theorem searchStartDate_none (cs : List Char) (h : ∀ c ∈ cs, c ≠ '\x7b') :
    searchStartDate cs = none := by
  induction cs with
  | nil => rfl
  | cons c cs ih =>
    rw [searchStartDate_cons c cs (h c (List.mem_cons_self c cs))]
    exact ih (fun c' hc' => h c' (List.mem_cons_of_mem c hc'))

theorem extract_from_templatesL_id (cs : List Char)
    (h : ∀ c ∈ cs, c ≠ '\x7b') : extract_from_templatesL cs = cs := by
  unfold extract_from_templatesL
  rw [searchStartDate_none cs h]

theorem tryLink_none (c : Char) (cs : List Char) (h : c ≠ '[') :
    tryLink (c :: cs) = none := by
  rw [tryLink.eq_def]
  split
  · rename_i heq
    injection heq with h1 _
    exact absurd h1 h
  · rfl

theorem subLinks_id (fuel : Nat) (cs : List Char) (h : ∀ c ∈ cs, c ≠ '[') :
    subLinks fuel cs = cs := by
  induction fuel generalizing cs with
  | zero => rfl
  | succ fuel ih =>
    cases cs with
    | nil => rfl
    | cons c cs =>
      rw [subLinks, tryLink_none c cs (h c (List.mem_cons_self c cs))]
      rw [ih cs (fun c' hc' => h c' (List.mem_cons_of_mem c hc'))]

theorem tryRefPair_none (c : Char) (cs : List Char) (h : c ≠ '<') :
    tryRefPair (c :: cs) = none := by
  rw [tryRefPair.eq_def]
  split
  · rename_i heq
    injection heq with h1 _
    exact absurd h1 h
  · rfl

theorem subRefPair_id (fuel : Nat) (cs : List Char) (h : ∀ c ∈ cs, c ≠ '<') :
    subRefPair fuel cs = cs := by
  induction fuel generalizing cs with
  | zero => rfl
  | succ fuel ih =>
    cases cs with
    | nil => rfl
    | cons c cs =>
      rw [subRefPair, tryRefPair_none c cs (h c (List.mem_cons_self c cs))]
      rw [ih cs (fun c' hc' => h c' (List.mem_cons_of_mem c hc'))]

theorem tryRefSelf_none (c : Char) (cs : List Char) (h : c ≠ '<') :
    tryRefSelf (c :: cs) = none := by
  rw [tryRefSelf.eq_def]
  split
  · rename_i heq
    injection heq with h1 _
    exact absurd h1 h
  · rfl

theorem subRefSelf_id (fuel : Nat) (cs : List Char) (h : ∀ c ∈ cs, c ≠ '<') :
    subRefSelf fuel cs = cs := by
  induction fuel generalizing cs with
  | zero => rfl
  | succ fuel ih =>
    cases cs with
    | nil => rfl
    | cons c cs =>
      rw [subRefSelf, tryRefSelf_none c cs (h c (List.mem_cons_self c cs))]
      rw [ih cs (fun c' hc' => h c' (List.mem_cons_of_mem c hc'))]

theorem tryTemplate_none (c : Char) (cs : List Char) (h : c ≠ '\x7b') :
    tryTemplate (c :: cs) = none := by
  rw [tryTemplate.eq_def]
  split
  · rename_i heq
    injection heq with h1 _
    exact absurd h1 h
  · rfl

theorem subTemplates_id (fuel : Nat) (cs : List Char)
    (h : ∀ c ∈ cs, c ≠ '\x7b') : subTemplates fuel cs = cs := by
  induction fuel generalizing cs with
  | zero => rfl
  | succ fuel ih =>
    cases cs with
    | nil => rfl
    | cons c cs =>
      rw [subTemplates, tryTemplate_none c cs (h c (List.mem_cons_self c cs))]
      rw [ih cs (fun c' hc' => h c' (List.mem_cons_of_mem c hc'))]

theorem tryHtml_none (c : Char) (cs : List Char) (h : c ≠ '<') :
    tryHtml (c :: cs) = none := by
  rw [tryHtml.eq_def]
  split
  · rename_i heq
    injection heq with h1 _
    exact absurd h1 h
  · rfl

theorem subHtml_id (fuel : Nat) (cs : List Char) (h : ∀ c ∈ cs, c ≠ '<') :
    subHtml fuel cs = cs := by
  induction fuel generalizing cs with
  | zero => rfl
  | succ fuel ih =>
    cases cs with
    | nil => rfl
    | cons c cs =>
      rw [subHtml, tryHtml_none c cs (h c (List.mem_cons_self c cs))]
      rw [ih cs (fun c' hc' => h c' (List.mem_cons_of_mem c hc'))]

theorem splitPred_ne_nil (p : Char → Bool) (cs : List Char) :
    splitPred p cs ≠ [] := by
  cases cs with
  | nil => simp [splitPred]
  | cons c cs =>
    simp only [splitPred]
    cases h : splitPred p cs with
    | nil => simp
    | cons a t => by_cases hp : p c = true <;> simp [hp]

theorem splitPred_cons_sep (p : Char → Bool) (c : Char) (l : List Char)
    (hc : p c = true) : splitPred p (c :: l) = [] :: splitPred p l := by
  simp only [splitPred]
  cases h : splitPred p l with
  | nil => exact absurd h (splitPred_ne_nil p l)
  | cons a t => simp [hc]

theorem splitPred_cons_word (p : Char → Bool) (c : Char) (l a : List Char)
    (t : List (List Char)) (hc : p c = false) (h : splitPred p l = a :: t) :
    splitPred p (c :: l) = (c :: a) :: t := by
  simp only [splitPred, h]
  simp [hc]

theorem splitPred_word_prepend (p : Char → Bool) (w l a : List Char)
    (t : List (List Char)) (hw : ∀ c ∈ w, p c = false)
    (h : splitPred p l = a :: t) :
    splitPred p (w ++ l) = (w ++ a) :: t := by
  induction w with
  | nil => simpa using h
  | cons c u ih =>
    rw [List.cons_append]
    rw [splitPred_cons_word p c (u ++ l) (u ++ a) t
      (hw c (List.mem_cons_self c u))
      (ih (fun c' hc' => hw c' (List.mem_cons_of_mem c hc')))]
    rfl

theorem splitPred_pfree_word (p : Char → Bool) (w : List Char)
    (hw : ∀ c ∈ w, p c = false) : splitPred p w = [w] := by
  induction w with
  | nil => rfl
  | cons c u ih =>
    exact splitPred_cons_word p c u u [] (hw c (List.mem_cons_self c u))
      (ih (fun c' hc' => hw c' (List.mem_cons_of_mem c hc')))

theorem splitPred_pieces_pfree (p : Char → Bool) (cs : List Char) :
    ∀ w ∈ splitPred p cs, ∀ c ∈ w, p c = false := by
  induction cs with
  | nil =>
    intro w hw c hc
    simp [splitPred] at hw
    subst hw
    simp at hc
  | cons a l ih =>
    intro w hw c hc
    by_cases hp : p a = true
    · rw [splitPred_cons_sep p a l hp] at hw
      rcases List.mem_cons.mp hw with h1 | h2
      · subst h1; simp at hc
      · exact ih w h2 c hc
    · cases h : splitPred p l with
      | nil => exact absurd h (splitPred_ne_nil p l)
      | cons b t =>
        rw [splitPred_cons_word p a l b t (by simpa using hp) h] at hw
        rcases List.mem_cons.mp hw with h1 | h2
        · subst h1
          rcases List.mem_cons.mp hc with h3 | h4
          · subst h3; simpa using hp
          · refine ih b ?_ c h4
            rw [h]; exact List.mem_cons_self b t
        · refine ih w ?_ c hc
          rw [h]; exact List.mem_cons_of_mem b h2

theorem splitPred_pieces_mem (p : Char → Bool) (cs : List Char) :
    ∀ w ∈ splitPred p cs, ∀ c ∈ w, c ∈ cs := by
  induction cs with
  | nil =>
    intro w hw c hc
    simp [splitPred] at hw
    subst hw
    simp at hc
  | cons a l ih =>
    intro w hw c hc
    by_cases hp : p a = true
    · rw [splitPred_cons_sep p a l hp] at hw
      rcases List.mem_cons.mp hw with h1 | h2
      · subst h1; simp at hc
      · exact List.mem_cons_of_mem a (ih w h2 c hc)
    · cases h : splitPred p l with
      | nil => exact absurd h (splitPred_ne_nil p l)
      | cons b t =>
        rw [splitPred_cons_word p a l b t (by simpa using hp) h] at hw
        rcases List.mem_cons.mp hw with h1 | h2
        · subst h1
          rcases List.mem_cons.mp hc with h3 | h4
          · rw [h3]; exact List.mem_cons_self a l
          · refine List.mem_cons_of_mem a (ih b ?_ c h4)
            rw [h]; exact List.mem_cons_self b t
        · refine List.mem_cons_of_mem a (ih w ?_ c hc)
          rw [h]; exact List.mem_cons_of_mem b h2

theorem pySplitWs_pfree (cs : List Char) :
    ∀ w ∈ pySplitWs cs, ∀ c ∈ w, isPySpace c = false := by
  intro w hw
  exact splitPred_pieces_pfree isPySpace cs w (List.mem_of_mem_filter hw)

theorem pySplitWs_ne_nil (cs : List Char) : ∀ w ∈ pySplitWs cs, w ≠ [] := by
  intro w hw
  have := List.of_mem_filter hw
  simpa [List.isEmpty_iff] using this

theorem pySplitWs_mem (cs : List Char) :
    ∀ w ∈ pySplitWs cs, ∀ c ∈ w, c ∈ cs := by
  intro w hw
  exact splitPred_pieces_mem isPySpace cs w (List.mem_of_mem_filter hw)

theorem joinWithSpace_ne_nil (w : List Char) (ws : List (List Char))
    (hw : w ≠ []) : joinWithSpace (w :: ws) ≠ [] := by
  cases ws with
  | nil => simpa [joinWithSpace] using hw
  | cons w' ws' => simp [joinWithSpace]

theorem joinWithSpace_mem (ws : List (List Char)) :
    ∀ c ∈ joinWithSpace ws, c = ' ' ∨ ∃ w ∈ ws, c ∈ w := by
  induction ws with
  | nil => intro c hc; simp [joinWithSpace] at hc
  | cons w ws' ih =>
    intro c hc
    cases ws' with
    | nil =>
      simp only [joinWithSpace] at hc
      exact Or.inr ⟨w, List.mem_cons_self w [], hc⟩
    | cons w' rest =>
      simp only [joinWithSpace] at hc
      rcases List.mem_append.mp hc with h1 | h2
      · exact Or.inr ⟨w, List.mem_cons_self w (w' :: rest), h1⟩
      · rcases List.mem_cons.mp h2 with h3 | h4
        · exact Or.inl h3
        · rcases ih c h4 with h5 | ⟨u, hu, hcu⟩
          · exact Or.inl h5
          · exact Or.inr ⟨u, List.mem_cons_of_mem w hu, hcu⟩

theorem dropWhile_eq_self_of_head (p : Char → Bool) (l : List Char)
    (h : ∀ c, l.head? = some c → p c = false) : l.dropWhile p = l := by
  cases l with
  | nil => rfl
  | cons c cs => exact List.dropWhile_cons_of_neg (by simp [h c rfl])

theorem joinWithSpace_head_pfree (ws : List (List Char))
    (hne : ∀ w ∈ ws, w ≠ [])
    (hfree : ∀ w ∈ ws, ∀ c ∈ w, isPySpace c = false) :
    ∀ c, (joinWithSpace ws).head? = some c → isPySpace c = false := by
  intro c hc
  cases ws with
  | nil => simp [joinWithSpace] at hc
  | cons w ws' =>
    cases w with
    | nil => exact absurd rfl (hne [] (List.mem_cons_self [] ws'))
    | cons a u =>
      have ha : (joinWithSpace ((a :: u) :: ws')).head? = some a := by
        cases ws' <;> simp [joinWithSpace]
      rw [ha] at hc
      have hac : a = c := Option.some.inj hc
      rw [← hac]
      exact hfree (a :: u) (List.mem_cons_self (a :: u) ws') a
        (List.mem_cons_self a u)

theorem joinWithSpace_getLast_pfree (ws : List (List Char))
    (hne : ∀ w ∈ ws, w ≠ [])
    (hfree : ∀ w ∈ ws, ∀ c ∈ w, isPySpace c = false) :
    ∀ c, (joinWithSpace ws).getLast? = some c → isPySpace c = false := by
  induction ws with
  | nil => intro c hc; simp [joinWithSpace] at hc
  | cons w ws' ih =>
    intro c hc
    cases ws' with
    | nil =>
      simp only [joinWithSpace] at hc
      exact hfree w (List.mem_cons_self w []) c (List.mem_of_getLast?_eq_some hc)
    | cons w' rest =>
      simp only [joinWithSpace] at hc
      rw [List.getLast?_append_cons] at hc
      have hj : joinWithSpace (w' :: rest) ≠ [] :=
        joinWithSpace_ne_nil w' rest (hne w' (List.mem_cons_of_mem w
          (List.mem_cons_self w' rest)))
      rw [show (' ' :: joinWithSpace (w' :: rest)) =
          [' '] ++ joinWithSpace (w' :: rest) from rfl,
        List.getLast?_append_of_ne_nil [' '] hj] at hc
      exact ih (fun u hu => hne u (List.mem_cons_of_mem w hu))
        (fun u hu => hfree u (List.mem_cons_of_mem w hu)) c hc

theorem pyStripList_join_eq (ws : List (List Char))
    (hne : ∀ w ∈ ws, w ≠ [])
    (hfree : ∀ w ∈ ws, ∀ c ∈ w, isPySpace c = false) :
    pyStripList (joinWithSpace ws) = joinWithSpace ws := by
  have h2 : ∀ c, (joinWithSpace ws).reverse.head? = some c →
      isPySpace c = false := by
    intro c hc
    rw [List.head?_reverse] at hc
    exact joinWithSpace_getLast_pfree ws hne hfree c hc
  unfold pyStripList
  rw [dropWhile_eq_self_of_head _ _ (joinWithSpace_head_pfree ws hne hfree)]
  rw [dropWhile_eq_self_of_head _ _ h2]
  exact List.reverse_reverse _

theorem pySplitWs_join (ws : List (List Char)) (hne : ∀ w ∈ ws, w ≠ [])
    (hfree : ∀ w ∈ ws, ∀ c ∈ w, isPySpace c = false) :
    pySplitWs (joinWithSpace ws) = ws := by
  induction ws with
  | nil => rfl
  | cons w ws' ih =>
    have hwne : w.isEmpty = false := by
      simpa [List.isEmpty_iff] using hne w (List.mem_cons_self w ws')
    cases ws' with
    | nil =>
      show pySplitWs (joinWithSpace [w]) = [w]
      unfold pySplitWs
      rw [show joinWithSpace [w] = w from rfl]
      rw [splitPred_pfree_word isPySpace w
        (hfree w (List.mem_cons_self w []))]
      simp [hwne]
    | cons w' rest =>
      show pySplitWs (w ++ ' ' :: joinWithSpace (w' :: rest)) = w :: w' :: rest
      unfold pySplitWs
      cases hsub : splitPred isPySpace (joinWithSpace (w' :: rest)) with
      | nil => exact absurd hsub (splitPred_ne_nil _ _)
      | cons b t =>
        have hsep : splitPred isPySpace (' ' :: joinWithSpace (w' :: rest)) =
            [] :: b :: t := by
          rw [splitPred_cons_sep isPySpace ' ' _ (by decide), hsub]
        have hword := splitPred_word_prepend isPySpace w
          (' ' :: joinWithSpace (w' :: rest)) [] (b :: t)
          (hfree w (List.mem_cons_self w (w' :: rest))) hsep
        rw [hword]
        have hih := ih (fun u hu => hne u (List.mem_cons_of_mem w hu))
          (fun u hu => hfree u (List.mem_cons_of_mem w hu))
        unfold pySplitWs at hih
        rw [hsub] at hih
        simp only [List.append_nil]
        rw [List.filter_cons, if_pos (by simp [hwne])]
        rw [hih]

theorem runSub_id (step : Nat → List Char → List Char) (cs : List Char)
    (h : ∀ fuel, step fuel cs = cs) : runSub step cs = cs :=
  h cs.length

theorem clean_wiki_value_eq (s : String)
    (h : ∀ c ∈ s.data, c ≠ '[' ∧ c ≠ '\x7b' ∧ c ≠ '<') :
    clean_wiki_value s =
      ⟨pyStripList (joinWithSpace (pySplitWs s.data))⟩ := by
  unfold clean_wiki_value
  rw [runSub_id subLinks s.data
    (fun fuel => subLinks_id fuel s.data (fun c hc => (h c hc).1))]
  rw [runSub_id subRefPair s.data
    (fun fuel => subRefPair_id fuel s.data (fun c hc => (h c hc).2.2))]
  rw [runSub_id subRefSelf s.data
    (fun fuel => subRefSelf_id fuel s.data (fun c hc => (h c hc).2.2))]
  rw [runSub_id subTemplates s.data
    (fun fuel => subTemplates_id fuel s.data (fun c hc => (h c hc).2.1))]
  rw [runSub_id subHtml s.data
    (fun fuel => subHtml_id fuel s.data (fun c hc => (h c hc).2.2))]

theorem normalizeValue_eq (s : String)
    (h : ∀ c ∈ s.data, c ≠ '[' ∧ c ≠ '\x7b' ∧ c ≠ '<') :
    normalizeValue s =
      ⟨pyStripList (joinWithSpace (pySplitWs s.data))⟩ := by
  unfold normalizeValue extract_from_templates
  rw [extract_from_templatesL_id s.data (fun c hc => (h c hc).2.1)]
  exact clean_wiki_value_eq s h

theorem pyStripList_subset (l : List Char) : ∀ c ∈ pyStripList l, c ∈ l := by
  intro c hc
  unfold pyStripList at hc
  rw [List.mem_reverse] at hc
  have hc2 := (List.dropWhile_suffix isPySpace).sublist.subset hc
  rw [List.mem_reverse] at hc2
  exact (List.dropWhile_suffix isPySpace).sublist.subset hc2

theorem normalized_chars (s : String)
    (h : ∀ c ∈ s.data, c ≠ '[' ∧ c ≠ '\x7b' ∧ c ≠ '<') :
    ∀ c ∈ pyStripList (joinWithSpace (pySplitWs s.data)),
      c ≠ '[' ∧ c ≠ '\x7b' ∧ c ≠ '<' := by
  intro c hc
  have hc1 := pyStripList_subset (joinWithSpace (pySplitWs s.data)) c hc
  rcases joinWithSpace_mem (pySplitWs s.data) c hc1 with hsp | ⟨w, hw, hcw⟩
  · rw [hsp]
    refine ⟨by decide, by decide, by decide⟩
  · exact h c (pySplitWs_mem s.data w hw c hcw)

/-- C7 counterexample: normalizeValue is not idempotent.  On nested wiki
links the single link-substitution pass resolves only the outer link, so a
second application still changes the value. -/
theorem c7_counterexample :
    normalizeValue (normalizeValue "[[a[[b]]c]]") ≠ normalizeValue "[[a[[b]]c]]" ∧
    normalizeValue "[[a[[b]]c]]" = "a[[bc]]" ∧
    normalizeValue (normalizeValue "[[a[[b]]c]]") = "abc" := by
  refine ⟨by decide, by decide, by decide⟩

/-- C7 amended: normalizeValue is idempotent on every string containing
none of the markup-trigger characters (open bracket, open brace, angle
bracket), where it reduces to whitespace normalization; it is NOT
idempotent in general (nested wiki links are a counterexample). -/
theorem c7_idempotent_on_markup_free (s : String)
    (h : ∀ c ∈ s.data, c ≠ '[' ∧ c ≠ '\x7b' ∧ c ≠ '<') :
    normalizeValue (normalizeValue s) = normalizeValue s := by
  have h1 := normalizeValue_eq s h
  have hne := pySplitWs_ne_nil s.data
  have hfree := pySplitWs_pfree s.data
  have hstrip := pyStripList_join_eq (pySplitWs s.data) hne hfree
  have hd : (⟨pyStripList (joinWithSpace (pySplitWs s.data))⟩ : String).data
      = pyStripList (joinWithSpace (pySplitWs s.data)) := rfl
  have h2 := normalizeValue_eq
    ⟨pyStripList (joinWithSpace (pySplitWs s.data))⟩
    (by rw [hd]; exact normalized_chars s h)
  rw [hd] at h2
  rw [h1, h2]
  congr 1
  rw [hstrip, pySplitWs_join (pySplitWs s.data) hne hfree]
  exact hstrip

/-- Witness for C7: idempotence on a markup-free string with irregular
whitespace. -/
theorem c7_witness :
    normalizeValue (normalizeValue "  hello   world ") =
      normalizeValue "  hello   world " :=
  c7_idempotent_on_markup_free "  hello   world " (by decide)

/-- Witness for C3: concrete text on both sides of the template and a
filler after the template name, as in a Start date and age template. -/
theorem c3_witness :
    extract_from_templatesL ("Founded ".data ++ '\x7b' :: '\x7b' ::
        ("Start date".data ++ (" and age".data ++
          '|' :: '1' :: '9' :: '9' :: '8' :: '|' ::
            (['9'] ++ '|' :: (['4'] ++ '\x7d' :: '\x7d' ::
              " in California".data))))) =
      ['1', '9', '9', '8'] ++ '-' :: (zfill2 ['9'] ++ '-' :: zfill2 ['4']) ∧
    extract_from_templatesL ("Founded ".data ++ '\x7b' :: '\x7b' ::
        ("Start date".data ++ (" and age".data ++
          '|' :: '1' :: '9' :: '9' :: '8' :: '|' ::
            (['9'] ++ '\x7d' :: '\x7d' :: " in California".data)))) =
      ['1', '9', '9', '8'] ++ '-' :: zfill2 ['9'] ∧
    extract_from_templatesL ("Founded ".data ++ '\x7b' :: '\x7b' ::
        ("Start date".data ++ (" and age".data ++
          '|' :: '1' :: '9' :: '9' :: '8' ::
            '\x7d' :: '\x7d' :: " in California".data))) =
      ['1', '9', '9', '8'] :=
  c3_whole_value_replaced "Founded ".data " and age".data " in California".data
    ['9'] ['4'] '1' '9' '9' '8' (by decide) (by decide) (by decide) (by decide)
    (by decide) (by decide) (by decide) (by decide) (by decide)

end JobWiz
